import Mathlib

/-!
Verification of the parameter-sweep core of `scqubits/core/param_sweep.py`.

The Python source is shallowly embedded: the `Parameters` container becomes a
structure over association lists (Python dicts are insertion-ordered maps), the
grid enumeration `itertools.product` becomes `product_lists`, numpy reshape /
`np.repeat` become `NdArray.ofFlat` / `npRepeat` over shape-indexed arrays, and
the sweep orchestration (`run`, `receive`, `__getitem__`, `is_single_sweep`,
`bare_specdata_list`) becomes explicit state passing over `SweepState` /
`World`.  Fallible Python operations (KeyError, IndexError, ValueError) are
modelled with `Option` / `Except`.  Machine reals play no role in the claims
below: parameter values are modelled as integers, and eigensolves are opaque
functions of the applied parameter point.
-/

namespace ParamSweep

/-! ## Association lists: the model of Python `dict`

Python dicts are insertion-ordered; assignment replaces the value of an
existing key in place and appends new keys at the end. -/

/-- Lookup in an insertion-ordered dictionary (first matching key). -/
def alistGet {β : Type} (d : List (String × β)) (k : String) : Option β :=
  match d with
  | [] => none
  | e :: rest => if e.1 = k then some e.2 else alistGet rest k

/-- Python `d[k] = v`: replace the value of an existing key in place,
append a new key at the end. -/
def alistSet {β : Type} (d : List (String × β)) (k : String) (v : β) :
    List (String × β) :=
  match d with
  | [] => [(k, v)]
  | e :: rest => if e.1 = k then (k, v) :: rest else e :: alistSet rest k v

/-- `Option`-valued map over a list, failing if any element fails
(the model of a Python comprehension that may raise). -/
def mapO {α β : Type} (f : α → Option β) : List α → Option (List β)
  | [] => some []
  | a :: l =>
    match f a, mapO f l with
    | some b, some r => some (b :: r)
    | _, _ => none

/-- Pair the `i`-th element of `as` with `as_values[i]`;
fails (Python IndexError) when `bs` is shorter than `as`, ignores extra
elements of `bs` — the semantics of `for i, a in enumerate(as): ... bs[i]`. -/
def zipExact {α β : Type} : List α → List β → Option (List (α × β))
  | [], _ => some []
  | _ :: _, [] => none
  | a :: as_, b :: bs =>
    match zipExact as_ bs with
    | some r => some ((a, b) :: r)
    | none => none

/-! ## Grid enumeration and row-major indexing -/

/-- `itertools.product(*lists)`: Cartesian product in row-major order, the
last list varying fastest. -/
def product_lists {α : Type} : List (List α) → List (List α)
  | [] => [[]]
  | xs :: rest => xs.flatMap (fun x => (product_lists rest).map (fun t => x :: t))

/-- Row-major (C-order) rank of a multi-index in an array of the given shape:
the flat position used by `numpy.reshape`. -/
def rowMajorRank : List Nat → List Nat → Nat
  | [], _ => 0
  | _ :: _, [] => 0
  | _ :: cs, i :: is_ => i * cs.prod + rowMajorRank cs is_

/-! ## `Parameters` (source lines 53-152) -/

/-- `Parameters`: the dictionary of parameter value sets plus the separate
name-ordering list (source `__init__`). -/
structure Parameters where
  paramvals_by_name : List (String × List Int)
  paramnames_list : List String
  deriving DecidableEq, Repr

/-- The value array stored under a name; `[]` stands in for the KeyError case,
which the well-formedness predicate `Parameters.WF` rules out. -/
def axisOf (p : Parameters) (nm : String) : List Int :=
  (alistGet p.paramvals_by_name nm).getD []

/-- Invariant from the spec (§3): the ordering list consists of distinct names,
each present in the dictionary. -/
def Parameters.WF (p : Parameters) : Prop :=
  p.paramnames_list.Nodup ∧
    ∀ nm ∈ p.paramnames_list, (alistGet p.paramvals_by_name nm).isSome = true

instance (p : Parameters) : Decidable p.WF := by
  unfold Parameters.WF; infer_instance

/-- `self.paramvals_list`: the value arrays in name-list order. -/
def Parameters.paramvals_list (p : Parameters) : List (List Int) :=
  p.paramnames_list.map (fun nm => axisOf p nm)

/-- `self.counts`: per-axis lengths, in ordering. -/
def Parameters.counts (p : Parameters) : List Nat :=
  p.paramvals_list.map List.length

/-- `self.ranges`: `[range(count) for count in self.counts]`. -/
def Parameters.ranges (p : Parameters) : List (List Nat) :=
  p.counts.map List.range

/-- `self.index_by_name(name)`: position of a name in the ordering list. -/
def Parameters.index_by_name (p : Parameters) (nm : String) : Nat :=
  p.paramnames_list.indexOf nm

/-- Helper for `Parameters.__getitem__` with a tuple key: walks the value
arrays and the key in parallel.  The loop runs over `range(len(self))`, so a
key longer than the axis count has its extra entries ignored, while a shorter
key raises IndexError (`none`); an out-of-range entry also raises (`none`). -/
def point_lookup : List (List Int) → List Nat → Option (List Int)
  | [], _ => some []
  | _ :: _, [] => none
  | vals :: rest, k :: ks =>
    match vals.get? k, point_lookup rest ks with
    | some v, some tail => some (v :: tail)
    | _, _ => none

/-- `Parameters.__getitem__` with a tuple key (source lines 90-94):
one concrete value per axis, `paramvals_by_name[paramnames_list[i]][key[i]]`. -/
def Parameters.get_point (p : Parameters) (key : List Nat) : Option (List Int) :=
  point_lookup p.paramvals_list key

/-- `ordered_dict`: `OrderedDict([(name, self[name]) for name in self.names])`. -/
def Parameters.ordered_dict (p : Parameters) : List (String × List Int) :=
  p.paramnames_list.map (fun nm => (nm, axisOf p nm))

/-- Argument of `reorder`: Python passes either a list of names or a list of
positional indices through the same dynamically-typed parameter. -/
inductive ReorderArg : Type
  | names (l : List String)
  | indices (l : List Nat)
  deriving DecidableEq, Repr

/-- `reorder` (source lines 128-134).  `sorted(a) == sorted(b)` on lists over a
linear order holds exactly when the two lists are equal as multisets, which is
how the two guards are rendered here.  The raise happens before any
assignment, so on error no new ordering is produced. -/
def Parameters.reorder (p : Parameters) (ordering : ReorderArg) :
    Except String Parameters :=
  match ordering with
  | .names l =>
    if (l : Multiset String) = (p.paramnames_list : Multiset String) then
      Except.ok ⟨p.paramvals_by_name, l⟩
    else
      Except.error "Not a valid ordering for parameters."
  | .indices l =>
    if (l : Multiset Nat) = ((List.range p.paramnames_list.length) : Multiset Nat) then
      Except.ok ⟨p.paramvals_by_name, l.map (fun i => p.paramnames_list.getD i "")⟩
    else
      Except.error "Not a valid ordering for parameters."

/-- `create_reduced` (source lines 140-152).  The reduced dictionary is rebuilt
from `paramnames_list` (`{name: self[name] for name in self._paramnames_list}`)
and then the fixed names are overwritten in enumeration order; the new
`Parameters` is constructed without an explicit ordering, so its ordering is
the key order of the rebuilt dictionary. -/
def Parameters.create_reduced (p : Parameters) (fixed_parametername_list : List String)
    (fixed_values : Option (List (List Int))) : Option Parameters :=
  match (match fixed_values with
    | some vs => some vs
    | none => mapO (fun nm =>
        (alistGet p.paramvals_by_name nm).bind (fun vals =>
          vals.head?.bind (fun v0 => some [v0]))) fixed_parametername_list),
    mapO (fun nm =>
      (alistGet p.paramvals_by_name nm).map (fun vals => (nm, vals)))
      p.paramnames_list with
  | some fvals, some base =>
    match zipExact fixed_parametername_list fvals with
    | some pairs =>
      let d := pairs.foldl (fun acc kv => alistSet acc kv.1 kv.2) base
      some ⟨d, d.map Prod.fst⟩
    | none => none
  | _, _ => none

/-! ## Dense labelled arrays (`numpy` fragment used by the sweeps)

A dense multi-dimensional array is a shape plus an entry function on
multi-indices.  Only shapes and entries at valid indices are ever consumed.
The trailing `esys` axis of length 2 holding the (eigenvalues, eigenvectors)
pair of each grid point is folded into the entry type: one entry is one
grid point's opaque eigensystem. -/

structure NdArray (β : Type) where
  shape : List Nat
  entry : List Nat → β

/-- `np.asarray(flat).reshape(shape)`: entry at a multi-index is the flat
element at its row-major rank. -/
def NdArray.ofFlat {β : Type} (shape : List Nat) (flat : List β) (d : β) : NdArray β :=
  ⟨shape, fun idx => flat.getD (rowMajorRank shape idx) d⟩

/-- `np.repeat(a, r, axis=k)`: each slice along axis `k` is repeated `r` times
consecutively, so position `j` along that axis reads source position `j / r`,
and the shape along `k` is multiplied by `r`. -/
def npRepeat {β : Type} (a : NdArray β) (r : Nat) (k : Nat) : NdArray β :=
  ⟨a.shape.set k (r * a.shape.getD k 0),
   fun idx => a.entry (idx.set k (idx.getD k 0 / r))⟩

/-! ## Bare and dressed spectrum sweeps (source lines 405-565) -/

/-- `paramnames_no_subsys_update` (source lines 448-456): the axes that do not
update the given subsystem.  Subsystems are identified by their index in the
Hilbert-space subsystem list; `subsys_update_info` maps axis names to the
subsystem indices they affect.  Python forms
`list(set(names) - set(updating_parameters))`, whose order is unspecified; the
model uses parameter-name order (all downstream uses are order-independent). -/
def paramnames_no_subsys_update (p : Parameters)
    (subsys_update_info : Option (List (String × List Nat))) (subsystem : Nat) :
    List String :=
  match subsys_update_info with
  | none => []
  | some info =>
    p.paramnames_list.filter
      (fun nm => !(info.any (fun e => e.1 == nm && e.2.contains subsystem)))

/-- The per-subsystem bare sweep's grid enumeration:
`itertools.product(*reduced_parameters.paramvals_list)` (source line 484). -/
def subsys_bare_enumeration (p : Parameters) : List (List Int) :=
  product_lists p.paramvals_list

/-- The dressed sweep's grid enumeration:
`itertools.product(*self.parameters.ranges)` (source line 552). -/
def dressed_enumeration (p : Parameters) : List (List Nat) :=
  product_lists p.ranges

/-- The replication loop of `_subsys_bare_spectrum_sweep` (source lines
498-501): `np.repeat` along the full-parameter axis of each collapsed name. -/
def repeat_expand {β : Type} (p : Parameters) :
    List String → NdArray β → NdArray β
  | [], arr => arr
  | nm :: rest, arr =>
    repeat_expand p rest
      (npRepeat arr (p.counts.getD (p.index_by_name nm) 0) (p.index_by_name nm))

/-- `_subsys_bare_spectrum_sweep` (source lines 458-503).  `f` is the opaque
per-point computation `_update_subsys_compute_esys(update_func, subsystem, ·)`:
mutate the handle to the given point, eigensolve the subsystem, return the
(eigenvalues, eigenvectors) pair — a pure function of the applied point. -/
def subsys_bare_spectrum_sweep {β : Type} (p : Parameters)
    (subsys_update_info : Option (List (String × List Nat))) (subsystem : Nat)
    (f : List Int → β) (d : β) : Option (NdArray β) :=
  let fixed := paramnames_no_subsys_update p subsys_update_info subsystem
  (p.create_reduced fixed none).map (fun reduced =>
    let flat := (subsys_bare_enumeration reduced).map f
    repeat_expand p fixed (NdArray.ofFlat reduced.counts flat d))

/-- `dressed_spectrum_sweep` (source lines 530-565).  `f` is the opaque
per-index-tuple computation `_update_and_compute_dressed_esys`; it receives the
index tuple, looks the point values up via `Parameters.get_point`, mutates the
handle and eigensolves the composite with the bare hint. -/
def dressed_spectrum_sweep {β : Type} (p : Parameters)
    (f : List Nat → β) (d : β) : NdArray β :=
  NdArray.ofFlat p.counts ((dressed_enumeration p).map f) d

/-! ## Sweep container state, selectors, result store -/

/-- One component of a tuple selector: a concrete index fixes an axis,
a slice leaves it free. -/
inductive SelEntry : Type
  | fixedIdx (i : Nat)
  | freeSlice
  deriving DecidableEq, Repr

/-- A `_current_param_indices` value: a tuple of entries, or a bare slice
(which leaves every axis free). -/
inductive Selector : Type
  | tup (entries : List SelEntry)
  | all
  deriving DecidableEq, Repr

/-- A result-store value: a named array (only its shape is consumed by the
operations modelled here), or Python `None` (what the stub `custom_sweep`
returns). -/
inductive StoreVal : Type
  | arr (shape : List Nat)
  | noneVal
  deriving DecidableEq, Repr

/-- The mutable state of a `ParameterSweep` object.  `hilbertspace` and
`self_id` are the object identities (`is`-comparison) of the attached live
Hilbert-space handle and of the sweep itself. -/
structure SweepState where
  parameters : Parameters
  data : List (String × StoreVal)
  out_of_sync : Bool
  current_param_indices : Selector
  hilbertspace : Nat
  self_id : Nat
  n_subsys : Nat
  deriving DecidableEq, Repr

/-- Process-wide state: `settings.DISPATCH_ENABLED` plus the sweep object. -/
structure World where
  dispatch_enabled : Bool
  sweep : SweepState
  deriving DecidableEq, Repr

/-- An event published through central dispatch: (event name, sender id). -/
abbrev Event : Type := String × Nat

/-- `ParameterSweepBase.receive` (source lines 197-215): if `"lookup"` is a
key of the result store, a `HILBERTSPACE_UPDATE` from the attached handle or a
`PARAMETERSWEEP_UPDATE` from the sweep itself marks the results out of sync;
anything else leaves the state unchanged. -/
def receive (s : SweepState) (event : String) (sender : Nat) : SweepState :=
  if (alistGet s.data "lookup").isSome then
    if event = "HILBERTSPACE_UPDATE" ∧ sender = s.hilbertspace then
      { s with out_of_sync := true }
    else if event = "PARAMETERSWEEP_UPDATE" ∧ sender = s.self_id then
      { s with out_of_sync := true }
    else s
  else s

/-- `ParameterSweepBase.__getitem__` with a tuple or slice key (source lines
187-195): records the key in `_current_param_indices` and returns `self` (the
very same object — rendered here as returning the updated state, whose
`self_id` is unchanged). -/
def getitem_select (s : SweepState) (key : Selector) : SweepState :=
  { s with current_param_indices := key }

/-- `is_single_sweep` (source lines 230-233): `True` iff the stored
`dressed_indices` array is two-dimensional.  The `param_indices` argument is
accepted but never used by the source.  A missing `dressed_indices` key raises
(KeyError), modelled as `none`. -/
def is_single_sweep (s : SweepState) (_param_indices : Selector) : Option Bool :=
  match alistGet s.data "dressed_indices" with
  | some (.arr shape) => some (decide (shape.length = 2))
  | _ => none

/-- `bare_specdata_list` (source lines 218-228), up to its guard: raise
`ValueError` unless `is_single_sweep` holds of
`fixed_params or self._current_param_indices`; `ok` means the extraction is
permitted (the remaining body of the source is unfinished and returns no
data). -/
def bare_specdata_list (s : SweepState) (fixed_params : Option Selector) :
    Except String Unit :=
  let param_indices := fixed_params.getD s.current_param_indices
  match is_single_sweep s param_indices with
  | none => Except.error "KeyError: dressed_indices"
  | some true => Except.ok ()
  | some false =>
    Except.error "All but one parameter must be fixed for bare_specdata_list."

/-- Claim-side definition, following the spec's words rather than the source:
the number of parameter axes left unfixed (free) by an index selector.  A bare
slice leaves every axis free; in a tuple, each concrete index fixes one axis
and axes beyond the tuple's length are free. -/
def spec_free_axis_count (p : Parameters) (sel : Selector) : Nat :=
  match sel with
  | .all => p.paramnames_list.length
  | .tup es =>
    p.paramnames_list.length -
      (es.take p.paramnames_list.length).countP
        (fun e => match e with | .fixedIdx _ => true | .freeSlice => false)

/-! ## `run` (source lines 393-403) -/

/-- Modelled from the spec: `generate_lookup` lives in `SpectrumLookupMixin`,
outside this repository slice.  Per spec §4.4 the `dressed_indices` table is a
named array "with one dimension per axis (no subsystem/esys dimension)", so
its shape is the tuple of axis counts.  Only this shape is consumed by the
operations modelled here. -/
def generate_lookup_shape (p : Parameters) : List Nat :=
  p.counts

/-- Environment of one `run()` call: whether each externally computed phase
raises (a per-point eigensolve or worker failure propagating out of the phase),
and the names of registered custom sweep generators (`custom_sweep` is a stub
returning `None`, so customs cannot fail). -/
structure RunEnv where
  bare_error : Option String
  dressed_error : Option String
  lookup_error : Option String
  custom_names : List String
  deriving DecidableEq, Repr

/-- Result of one `run()` call: the final process/sweep state, the dispatch
events observable before the bulk phase (from `cause_dispatch`), the events
observable during the bulk phases (one handle update per grid point, delivered
only while `DISPATCH_ENABLED` holds), the value of `DISPATCH_ENABLED` observed
at the start of each executed phase, and the propagated error, if any. -/
structure RunResult where
  world : World
  pre_events : List Event
  bulk_events : List Event
  phase_flags : List Bool
  error : Option String
  deriving DecidableEq, Repr

/-- `ParameterSweep.run` (source lines 393-403): one `cause_dispatch` update
with dispatch in its entry state, then `DISPATCH_ENABLED = False`, then the
bare, dressed, lookup and custom phases storing their results under
`bare_esys`, `esys`, `dressed_indices` and the custom names, then
`DISPATCH_ENABLED = True`.  There is no try/finally: an error propagating out
of a phase leaves the flag as it is at that point.  Each bulk phase performs
one handle update per grid point; those publishes are delivered only while
dispatch is enabled. -/
def run (env : RunEnv) (w : World) : RunResult :=
  let s0 := w.sweep
  let npts := s0.parameters.counts.prod
  -- cause_dispatch(): update the handle to the first point, one dispatch fires
  let pre : List Event :=
    if w.dispatch_enabled then [("HILBERTSPACE_UPDATE", s0.hilbertspace)] else []
  let s1 :=
    if w.dispatch_enabled then receive s0 "HILBERTSPACE_UPDATE" s0.hilbertspace
    else s0
  -- settings.DISPATCH_ENABLED = False
  let enabled := false
  let flags1 := [enabled]
  let bulk1 : List Event :=
    if enabled then List.replicate npts ("HILBERTSPACE_UPDATE", s1.hilbertspace)
    else []
  match env.bare_error with
  | some e => ⟨⟨enabled, s1⟩, pre, bulk1, flags1, some e⟩
  | none =>
    let s2 := { s1 with
      data := alistSet s1.data "bare_esys"
        (.arr (s1.n_subsys :: (s1.parameters.counts ++ [2]))) }
    let flags2 := flags1 ++ [enabled]
    let bulk2 := bulk1 ++
      (if enabled then
        List.replicate npts (("HILBERTSPACE_UPDATE", s2.hilbertspace) : Event)
       else [])
    match env.dressed_error with
    | some e => ⟨⟨enabled, s2⟩, pre, bulk2, flags2, some e⟩
    | none =>
      let s3 := { s2 with
        data := alistSet s2.data "esys" (.arr (s2.parameters.counts ++ [2])) }
      let flags3 := flags2 ++ [enabled]
      match env.lookup_error with
      | some e => ⟨⟨enabled, s3⟩, pre, bulk2, flags3, some e⟩
      | none =>
        let s4 := { s3 with
          data := alistSet s3.data "dressed_indices"
            (.arr (generate_lookup_shape s3.parameters)) }
        let flags4 := flags3 ++ env.custom_names.map (fun _ => enabled)
        let s5 := { s4 with
          data := env.custom_names.foldl (fun d nm => alistSet d nm .noneVal) s4.data }
        -- settings.DISPATCH_ENABLED = True
        ⟨⟨true, s5⟩, pre, bulk2, flags4, none⟩

/-! ## Proof-auxiliary definitions -/

/-- The multi-index transformation performed by `repeat_expand`'s chain of
`np.repeat` reads: used only to reason about `repeat_expand`. -/
def ctransform (p : Parameters) : List String → List Nat → List Nat
  | [], idx => idx
  | nm :: rest, idx =>
    let t := ctransform p rest idx
    let k := p.index_by_name nm
    t.set k (t.getD k 0 / p.counts.getD k 0)

/-! ## Concrete instances used by counterexamples and witnesses -/

/-- The spec §8 example grid: axes `p = [1, 2]`, `q = [10, 20, 30]`. -/
def p2ex : Parameters :=
  ⟨[("p", [1, 2]), ("q", [10, 20, 30])], ["p", "q"]⟩

/-- A three-axis grid. -/
def p3ex : Parameters :=
  ⟨[("a", [1, 2]), ("b", [3, 4]), ("c", [5, 6])], ["a", "b", "c"]⟩

/-- The spec §8 `create_reduced` example: `p = [1,2,3]` plus a second axis. -/
def pC8ex : Parameters :=
  ⟨[("p", [1, 2, 3]), ("q", [10, 20])], ["p", "q"]⟩

/-- `subsys_update_info` example: axis `q` updates subsystem 0 only,
so axis `p` is collapsed for subsystem 0. -/
def infoEx : List (String × List Nat) := [("q", [0])]

/-- A freshly constructed two-axis sweep (result store empty, staleness flag
clear, dispatch enabled). -/
def s0ex : SweepState :=
  { parameters := p2ex, data := [], out_of_sync := false,
    current_param_indices := .tup [], hilbertspace := 1, self_id := 2,
    n_subsys := 2 }

def w0ex : World := ⟨true, s0ex⟩

/-- A freshly constructed three-axis sweep. -/
def s3ex : SweepState :=
  { parameters := p3ex, data := [], out_of_sync := false,
    current_param_indices := .tup [], hilbertspace := 3, self_id := 4,
    n_subsys := 2 }

def w3ex : World := ⟨true, s3ex⟩

/-- Environment of a fully successful `run()` with no custom sweeps. -/
def envOK : RunEnv := ⟨none, none, none, []⟩

/-- Environment in which a per-point eigensolve fails during the bare phase. -/
def envBareFail : RunEnv := ⟨some "eigensolve failed", none, none, []⟩

/-- The bare-sweep array of subsystem 0 on the example grid, with the identity
standing in for the opaque per-point eigensolve. -/
def arrEx : NdArray (List Int) :=
  (subsys_bare_spectrum_sweep p2ex (some infoEx) 0 (fun v => v) []).getD
    ⟨[], fun _ => []⟩

/-! # Theorems -/

/-! ## Grid enumeration: `itertools.product` facts -/

theorem product_lists_length {α : Type} (ls : List (List α)) :
    (product_lists ls).length = (ls.map List.length).prod := by
  induction ls with
  | nil => rfl
  | cons xs rest ih =>
    simp only [product_lists, List.length_flatMap, List.map_map, List.map_cons,
      List.prod_cons]
    have h1 : List.map (List.length ∘ fun x => List.map (fun t => x :: t)
          (product_lists rest)) xs
        = List.map (fun _ => (List.map List.length rest).prod) xs := by
      refine List.map_congr_left (fun x _ => ?_)
      simp [Function.comp, ih]
    rw [h1, List.map_const', List.sum_const_nat]

theorem rowMajorRank_lt (cs ks : List Nat) (hlen : ks.length = cs.length)
    (hb : ∀ i, i < cs.length → ks.getD i 0 < cs.getD i 0) :
    rowMajorRank cs ks < cs.prod := by
  induction cs generalizing ks with
  | nil => simp [rowMajorRank]
  | cons c cs ih =>
    cases ks with
    | nil => simp at hlen
    | cons k ks =>
      have hk : k < c := by simpa using hb 0 (by simp)
      have hr : rowMajorRank cs ks < cs.prod := by
        refine ih ks (by simpa using hlen) (fun i hi => ?_)
        simpa using hb (i + 1) (by simpa using hi)
      have : k * cs.prod + rowMajorRank cs ks < c * cs.prod := by
        calc k * cs.prod + rowMajorRank cs ks < k * cs.prod + cs.prod := by omega
          _ = (k + 1) * cs.prod := by ring
          _ ≤ c * cs.prod := Nat.mul_le_mul_right _ hk
      simpa [rowMajorRank, List.prod_cons] using this

theorem flatMap_get?_block {α β : Type} (l : List α) (f : α → List β) (m : Nat)
    (hm : ∀ a ∈ l, (f a).length = m) (a0 : α) :
    ∀ k r : Nat, k < l.length → r < m →
      (l.flatMap f).get? (k * m + r) = (f (l.getD k a0)).get? r := by
  induction l with
  | nil => intro k r hk _; simp at hk
  | cons a tl ih =>
    intro k r hk hr
    cases k with
    | zero =>
      have hlen : (f a).length = m := hm a (by simp)
      rw [List.flatMap_cons, Nat.zero_mul, Nat.zero_add,
        List.get?_append (by omega)]
      simp
    | succ k =>
      have hlen : (f a).length = m := hm a (by simp)
      have hpos : (k + 1) * m + r = (f a).length + (k * m + r) := by
        rw [hlen]; ring
      rw [List.flatMap_cons, hpos, List.get?_append_right (by omega)]
      have : (f a).length + (k * m + r) - (f a).length = k * m + r := by omega
      rw [this, ih (fun b hb => hm b (by simp [hb])) k r (by simpa using hk) hr]
      simp

theorem product_ranges_get? (cs : List Nat) :
    ∀ ks : List Nat, ks.length = cs.length →
      (∀ i, i < cs.length → ks.getD i 0 < cs.getD i 0) →
      (product_lists (cs.map List.range)).get? (rowMajorRank cs ks) = some ks := by
  induction cs with
  | nil =>
    intro ks hlen _
    cases ks with
    | nil => rfl
    | cons _ _ =>
      simp only [List.length_cons, List.length_nil] at hlen
      omega
  | cons c cs ih =>
    intro ks hlen hb
    cases ks with
    | nil =>
      simp only [List.length_cons, List.length_nil] at hlen
      omega
    | cons k ks =>
      have hk : k < c := by simpa using hb 0 (by simp)
      have hbx : ∀ i, i < cs.length → ks.getD i 0 < cs.getD i 0 := fun i hi => by
        simpa using hb (i + 1) (by simpa using hi)
      have hlen2 : ks.length = cs.length := by simpa using hlen
      have hr := rowMajorRank_lt cs ks hlen2 hbx
      have hinner : (product_lists (cs.map List.range)).length = cs.prod := by
        have hc : List.length ∘ List.range = id := by
          funext n; simp
        rw [product_lists_length, List.map_map, hc, List.map_id]
      have hm : ∀ x ∈ List.range c,
          ((product_lists (cs.map List.range)).map (fun t => x :: t)).length
            = cs.prod := by
        intro x _; simpa using hinner
      have hblock := flatMap_get?_block (List.range c)
        (fun x => (product_lists (cs.map List.range)).map (fun t => x :: t))
        cs.prod hm 0 k (rowMajorRank cs ks) (by simpa using hk) hr
      have hget : (List.range c).getD k 0 = k := by
        simp [List.getD_eq_getElem?_getD, List.getElem?_range hk]
      simp only [List.map_cons, product_lists, rowMajorRank]
      rw [hblock, hget, List.get?_map, ih ks hlen2 hbx]
      rfl

theorem range_map_getD {α : Type} (l : List α) (d : α) :
    (List.range l.length).map (fun k => l.getD k d) = l := by
  induction l with
  | nil => rfl
  | cons a tl ih =>
    rw [List.length_cons, List.range_succ_eq_map, List.map_cons, List.map_map]
    have h1 : ((fun k => (a :: tl).getD k d) ∘ Nat.succ) = fun k => tl.getD k d := by
      funext k; simp [List.getD_cons_succ]
    rw [h1, ih, List.getD_cons_zero]

theorem range_flatMap_getD {α β : Type} (l : List α) (d : α) (g : α → List β) :
    (List.range l.length).flatMap (fun k => g (l.getD k d)) = l.flatMap g := by
  have h1 : ((List.range l.length).map (fun k => l.getD k d)).flatMap g
      = l.flatMap g := by rw [range_map_getD]
  rw [← h1, List.flatMap_map]

theorem point_lookup_cons {l : List Int} {k : Nat} {v : Int} (ls : List (List Int))
    (ks : List Nat) (hv : l.get? k = some v) :
    point_lookup (l :: ls) (k :: ks) = (point_lookup ls ks).map (fun t => v :: t) := by
  have hv2 : l[k]? = some v := by simpa using hv
  cases h : point_lookup ls ks with
  | none => simp [point_lookup, hv, hv2, h]
  | some t => simp [point_lookup, hv, hv2, h]

theorem map_point_lookup_product (ls : List (List Int)) :
    (product_lists (ls.map (fun l => List.range l.length))).map (point_lookup ls)
      = (product_lists ls).map some := by
  induction ls with
  | nil => rfl
  | cons l ls ih =>
    simp only [List.map_cons, product_lists, List.map_flatMap, List.map_map]
    have hstep : ∀ k, k < l.length →
        (product_lists (ls.map (fun t => List.range t.length))).map
            (fun ks => point_lookup (l :: ls) (k :: ks))
          = (product_lists ls).map (fun t => some (l.getD k 0 :: t)) := by
      intro k hk
      have hv : l.get? k = some (l.getD k 0) := by
        simp [List.getD_eq_getElem?_getD]
        cases h : l[k]? with
        | none => exact absurd (List.getElem?_eq_none_iff.mp h) (by omega)
        | some v => simp [h]
      calc (product_lists (ls.map (fun t => List.range t.length))).map
              (fun ks => point_lookup (l :: ls) (k :: ks))
          = (product_lists (ls.map (fun t => List.range t.length))).map
              (fun ks => (point_lookup ls ks).map (fun t => l.getD k 0 :: t)) := by
            refine List.map_congr_left (fun ks _ => ?_)
            exact point_lookup_cons ls ks hv
        _ = ((product_lists (ls.map (fun t => List.range t.length))).map
              (point_lookup ls)).map (Option.map (fun t => l.getD k 0 :: t)) := by
            rw [List.map_map]; rfl
        _ = ((product_lists ls).map some).map
              (Option.map (fun t => l.getD k 0 :: t)) := by rw [ih]
        _ = (product_lists ls).map (fun t => some (l.getD k 0 :: t)) := by
            rw [List.map_map]; rfl
    calc (List.range l.length).flatMap
            (fun k => (product_lists (ls.map (fun t => List.range t.length))).map
              (fun ks => point_lookup (l :: ls) (k :: ks)))
        = (List.range l.length).flatMap
            (fun k => (product_lists ls).map (fun t => some (l.getD k 0 :: t))) := by
          refine List.flatMap_congr (fun k hk => ?_)
          exact hstep k (by simpa using hk)
      _ = l.flatMap (fun v => (product_lists ls).map (fun t => some (v :: t))) :=
          range_flatMap_getD l 0
            (fun v => (product_lists ls).map (fun t => some (v :: t)))
      _ = l.flatMap (fun a => (product_lists ls).map (some ∘ fun t => a :: t)) := by
          refine List.flatMap_congr fun v _ => ?_
          rfl

theorem get?_eq_some_getD {α : Type} (l : List α) (d : α) {k : Nat}
    (hk : k < l.length) : l.get? k = some (l.getD k d) := by
  simp only [List.getD_eq_getElem?_getD, List.get?_eq_getElem?]
  cases h : l[k]? with
  | none => exact absurd (List.getElem?_eq_none_iff.mp h) (by omega)
  | some v => simp [h]

/-! ## `Parameters.__getitem__` with a tuple key -/

theorem point_lookup_isSome (ls : List (List Int)) :
    ∀ key : List Nat, (point_lookup ls key).isSome = true ↔
      (ls.length ≤ key.length ∧
        ∀ i, i < ls.length → key.getD i 0 < (ls.getD i []).length) := by
  induction ls with
  | nil => intro key; simp [point_lookup]
  | cons vals rest ih =>
    intro key
    cases key with
    | nil =>
      simp only [point_lookup, Option.isSome_none, List.length_cons,
        List.length_nil]
      constructor
      · intro h; cases h
      · intro h; omega
    | cons k ks =>
      have hsplit : (∀ i, i < (vals :: rest).length →
            (k :: ks).getD i 0 < ((vals :: rest).getD i []).length) ↔
          (k < vals.length ∧
            ∀ i, i < rest.length → ks.getD i 0 < (rest.getD i []).length) := by
        constructor
        · intro h
          refine ⟨by simpa using h 0 (by simp), fun i hi => ?_⟩
          simpa using h (i + 1) (by simpa using hi)
        · rintro ⟨h0, h⟩ i hi
          cases i with
          | zero => simpa using h0
          | succ i => simpa using h i (by simpa using hi)
      cases hv : vals.get? k with
      | none =>
        have hk : vals.length ≤ k := List.get?_eq_none.mp hv
        cases hr : point_lookup rest ks with
        | none =>
          simp only [point_lookup, hv, hr]
          constructor
          · intro h; cases h
          · rintro ⟨-, hall⟩
            have := (hsplit.mp hall).1
            omega
        | some t =>
          simp only [point_lookup, hv, hr]
          constructor
          · intro h; cases h
          · rintro ⟨-, hall⟩
            have := (hsplit.mp hall).1
            omega
      | some v =>
        have hk : k < vals.length := by
          obtain ⟨hk, -⟩ := List.get?_eq_some.mp hv
          exact hk
        cases hr : point_lookup rest ks with
        | none =>
          simp only [point_lookup, hv, hr]
          constructor
          · intro h; cases h
          · rintro ⟨hlen, hall⟩
            have h2 := (ih ks).mpr
              ⟨by simpa using hlen, (hsplit.mp hall).2⟩
            rw [hr] at h2; cases h2
        | some t =>
          simp only [point_lookup, hv, hr]
          constructor
          · intro _
            have h2 : (point_lookup rest ks).isSome = true := by rw [hr]; rfl
            obtain ⟨hlen, hall⟩ := (ih ks).mp h2
            exact ⟨by simpa using hlen, hsplit.mpr ⟨hk, hall⟩⟩
          · intro _; rfl

theorem point_lookup_eq (ls : List (List Int)) :
    ∀ key : List Nat, ls.length ≤ key.length →
      (∀ i, i < ls.length → key.getD i 0 < (ls.getD i []).length) →
      point_lookup ls key
        = some ((List.range ls.length).map
            (fun i => (ls.getD i []).getD (key.getD i 0) 0)) := by
  induction ls with
  | nil => intro key _ _; rfl
  | cons vals rest ih =>
    intro key hlen hall
    cases key with
    | nil =>
      simp only [List.length_cons, List.length_nil] at hlen
      omega
    | cons k ks =>
      have hk : k < vals.length := by simpa using hall 0 (by simp)
      have hv : vals.get? k = some (vals.getD k 0) := get?_eq_some_getD vals 0 hk
      rw [point_lookup_cons rest ks hv,
        ih ks (by simpa using hlen)
          (fun i hi => by simpa using hall (i + 1) (by simpa using hi))]
      have hfun : ((fun i => ((vals :: rest).getD i []).getD ((k :: ks).getD i 0) 0)
            ∘ Nat.succ)
          = fun i => (rest.getD i []).getD (ks.getD i 0) 0 := by
        funext i; simp [List.getD_cons_succ]
      rw [List.length_cons, List.range_succ_eq_map, List.map_cons, List.map_map,
        hfun]
      simp [List.getD_cons_zero]

/-- C5 (amended): point lookup `Parameters[t]` succeeds exactly when `t` has at
least as many entries as there are axes and each of the first `n` entries is in
range for its axis (entries beyond the first `n` are ignored); on success it
returns one scalar per axis, the `t[i]`-th value of axis `i`.  When `t` is
shorter than the axis count (or an entry is out of range) it fails with an
index error. -/
theorem c5_get_point_arity (p : Parameters) (key : List Nat) :
    ((p.get_point key).isSome = true ↔
      (p.paramvals_list.length ≤ key.length ∧
        ∀ i, i < p.paramvals_list.length →
          key.getD i 0 < (p.paramvals_list.getD i []).length)) ∧
    (p.paramvals_list.length ≤ key.length →
      (∀ i, i < p.paramvals_list.length →
        key.getD i 0 < (p.paramvals_list.getD i []).length) →
      p.get_point key
        = some ((List.range p.paramvals_list.length).map
            (fun i => (p.paramvals_list.getD i []).getD (key.getD i 0) 0))) :=
  ⟨point_lookup_isSome p.paramvals_list key, point_lookup_eq p.paramvals_list key⟩

/-- C5 counterexample: on the two-axis example grid, the three-entry index
tuple `(0, 0, 0)` does not fail with a dimension-mismatch error as the claim
requires — the extra entry is ignored and the lookup succeeds. -/
theorem c5_counterexample :
    p2ex.paramnames_list.length = 2 ∧ ([0, 0, 0] : List Nat).length ≠ 2 ∧
    p2ex.get_point [0, 0, 0] = some [1, 10] := by decide

theorem c5_witness :
    p2ex.paramvals_list.length ≤ ([1, 2] : List Nat).length ∧
    (∀ i, i < p2ex.paramvals_list.length →
      ([1, 2] : List Nat).getD i 0 < (p2ex.paramvals_list.getD i []).length) ∧
    p2ex.get_point [1, 2] = some [2, 30] :=
  ⟨by decide, by decide, by
    rw [(c5_get_point_arity p2ex [1, 2]).2 (by decide) (by decide)]; rfl⟩

/-- C6: both the bare sweep (which enumerates
`itertools.product(*paramvals_list)`) and the dressed sweep (which enumerates
`itertools.product(*ranges)` and resolves each index tuple through
`Parameters.__getitem__`) visit exactly `prod(counts)` grid points; the two
enumerations visit the same points in the same order; the order is row-major
with the last axis varying fastest — index tuple `ks` sits at flat position
`rowMajorRank counts ks`; and on the example grid `p = [1,2]`,
`q = [10,20,30]` the six points appear in the stated order. -/
theorem c6_grid_enumeration (p : Parameters) :
    (subsys_bare_enumeration p).length = p.counts.prod ∧
    (dressed_enumeration p).length = p.counts.prod ∧
    (dressed_enumeration p).map p.get_point
      = (subsys_bare_enumeration p).map some ∧
    (∀ ks : List Nat, ks.length = p.counts.length →
      (∀ i, i < p.counts.length → ks.getD i 0 < p.counts.getD i 0) →
      (dressed_enumeration p).get? (rowMajorRank p.counts ks) = some ks) ∧
    subsys_bare_enumeration p2ex
      = [[1, 10], [1, 20], [1, 30], [2, 10], [2, 20], [2, 30]] := by
  refine ⟨?_, ?_, ?_, ?_, by decide⟩
  · rw [subsys_bare_enumeration, product_lists_length]; rfl
  · rw [dressed_enumeration, product_lists_length]
    have hc : List.length ∘ List.range = id := by funext n; simp
    show ((p.counts.map List.range).map List.length).prod = p.counts.prod
    rw [List.map_map, hc, List.map_id]
  · have hranges : p.ranges = p.paramvals_list.map (fun l => List.range l.length) := by
      show (p.paramvals_list.map List.length).map List.range = _
      rw [List.map_map]; rfl
    show (product_lists p.ranges).map (point_lookup p.paramvals_list) = _
    rw [hranges]
    exact map_point_lookup_product p.paramvals_list
  · intro ks h1 h2
    exact product_ranges_get? p.counts ks h1 h2

theorem c6_witness :
    ([1, 2] : List Nat).length = p2ex.counts.length ∧
    (∀ i, i < p2ex.counts.length →
      ([1, 2] : List Nat).getD i 0 < p2ex.counts.getD i 0) ∧
    (dressed_enumeration p2ex).get? (rowMajorRank p2ex.counts [1, 2])
      = some [1, 2] :=
  ⟨by decide, by decide,
    (c6_grid_enumeration p2ex).2.2.2.1 [1, 2] (by decide) (by decide)⟩

/-! ## `reorder` / `ordered_dict` -/

/-- C9: `reorder` with a permutation of the axis names, or with a permutation
of the positional indices `0..n-1`, succeeds, touches no axis's values (the
dictionary is unchanged), and a subsequent `ordered_dict` lists the axes in
exactly the requested order with their original value arrays; any other
argument of either kind fails with the "Not a valid ordering" error, and since
the raise happens before any assignment the ordering is left unchanged. -/
theorem c9_reorder_spec (p : Parameters) :
    (∀ l : List String, l.Perm p.paramnames_list →
      p.reorder (.names l) = Except.ok (Parameters.mk p.paramvals_by_name l) ∧
      (Parameters.mk p.paramvals_by_name l).ordered_dict
        = l.map (fun nm => (nm, axisOf p nm))) ∧
    (∀ l : List String, ¬ l.Perm p.paramnames_list →
      p.reorder (.names l)
        = Except.error "Not a valid ordering for parameters.") ∧
    (∀ l : List Nat, l.Perm (List.range p.paramnames_list.length) →
      p.reorder (.indices l)
        = Except.ok (Parameters.mk p.paramvals_by_name
            (l.map (fun i => p.paramnames_list.getD i ""))) ∧
      (Parameters.mk p.paramvals_by_name
          (l.map (fun i => p.paramnames_list.getD i ""))).ordered_dict
        = l.map (fun i => (p.paramnames_list.getD i "",
            axisOf p (p.paramnames_list.getD i "")))) ∧
    (∀ l : List Nat, ¬ l.Perm (List.range p.paramnames_list.length) →
      p.reorder (.indices l)
        = Except.error "Not a valid ordering for parameters.") := by
  refine ⟨fun l hl => ?_, fun l hl => ?_, fun l hl => ?_, fun l hl => ?_⟩
  · rw [Parameters.reorder, if_pos (Multiset.coe_eq_coe.mpr hl)]
    exact ⟨rfl, rfl⟩
  · rw [Parameters.reorder, if_neg (fun h => hl (Multiset.coe_eq_coe.mp h))]
  · rw [Parameters.reorder, if_pos (Multiset.coe_eq_coe.mpr hl)]
    refine ⟨rfl, ?_⟩
    rw [Parameters.ordered_dict, List.map_map]
    rfl
  · rw [Parameters.reorder, if_neg (fun h => hl (Multiset.coe_eq_coe.mp h))]

theorem c9_witness :
    (["q", "p"] : List String).Perm p2ex.paramnames_list ∧
    p2ex.reorder (.names ["q", "p"])
      = Except.ok (Parameters.mk p2ex.paramvals_by_name ["q", "p"]) ∧
    (Parameters.mk p2ex.paramvals_by_name ["q", "p"]).ordered_dict
      = [("q", [10, 20, 30]), ("p", [1, 2])] ∧
    p2ex.reorder (.indices [1, 0])
      = Except.ok (Parameters.mk p2ex.paramvals_by_name ["q", "p"]) ∧
    ¬ (["q", "q"] : List String).Perm p2ex.paramnames_list ∧
    p2ex.reorder (.names ["q", "q"])
      = Except.error "Not a valid ordering for parameters." ∧
    p2ex.reorder (.indices [0, 2])
      = Except.error "Not a valid ordering for parameters." := by
  have h1 := (c9_reorder_spec p2ex).1 ["q", "p"] (by decide)
  have h3 := (c9_reorder_spec p2ex).2.2.1 [1, 0] (by decide)
  have h2 := (c9_reorder_spec p2ex).2.1 ["q", "q"] (by decide)
  have h4 := (c9_reorder_spec p2ex).2.2.2 [0, 2] (by decide)
  refine ⟨by decide, h1.1, ?_, ?_, by decide, h2, h4⟩
  · rw [h1.2]; rfl
  · rw [h3.1]; rfl

/-! ## Association-list and comprehension lemmas -/

theorem alistGet_alistSet_self {β : Type} (d : List (String × β)) (k : String)
    (v : β) : alistGet (alistSet d k v) k = some v := by
  induction d with
  | nil => simp [alistGet, alistSet]
  | cons e rest ih =>
    by_cases h : e.1 = k
    · simp [alistSet, alistGet, h]
    · simp [alistSet, alistGet, h, ih]

theorem alistGet_alistSet_ne {β : Type} (d : List (String × β)) {k k' : String}
    (v : β) (h : k' ≠ k) : alistGet (alistSet d k v) k' = alistGet d k' := by
  induction d with
  | nil =>
    simp only [alistSet, alistGet]
    rw [if_neg (fun hh => h hh.symm)]
  | cons e rest ih =>
    by_cases h2 : e.1 = k
    · simp only [alistSet, if_pos h2, alistGet]
      rw [if_neg (fun hh => h hh.symm), if_neg (by rw [h2]; exact fun hh => h hh.symm)]
    · simp only [alistSet, if_neg h2, alistGet]
      by_cases h3 : e.1 = k'
      · rw [if_pos h3, if_pos h3]
      · rw [if_neg h3, if_neg h3, ih]

theorem alistSet_keys_of_mem {β : Type} (d : List (String × β)) (k : String)
    (v : β) (h : (alistGet d k).isSome = true) :
    (alistSet d k v).map Prod.fst = d.map Prod.fst := by
  induction d with
  | nil => simp [alistGet] at h
  | cons e rest ih =>
    by_cases h2 : e.1 = k
    · simp [alistSet, h2]
    · simp only [alistGet, if_neg h2] at h
      simp [alistSet, h2, ih h]

theorem mapO_eq_some_of {α β : Type} (f : α → Option β) (g : α → β) :
    ∀ l : List α, (∀ a ∈ l, f a = some (g a)) → mapO f l = some (l.map g) := by
  intro l
  induction l with
  | nil => intro _; rfl
  | cons a tl ih =>
    intro h
    simp [mapO, h a (by simp), ih (fun b hb => h b (by simp [hb]))]

theorem zipExact_eq_some {α β : Type} :
    ∀ (as_ : List α) (bs : List β), as_.length ≤ bs.length →
      zipExact as_ bs = some (as_.zip bs) := by
  intro as_
  induction as_ with
  | nil => intro bs _; rfl
  | cons a tl ih =>
    intro bs hlen
    cases bs with
    | nil => simp at hlen
    | cons b bt =>
      simp [zipExact, ih bt (by simpa using hlen), List.zip_cons_cons]

theorem foldl_alistSet_get_notmem {β : Type} :
    ∀ (pairs : List (String × β)) (d : List (String × β)) (k : String),
      k ∉ pairs.map Prod.fst →
      alistGet (pairs.foldl (fun acc kv => alistSet acc kv.1 kv.2) d) k
        = alistGet d k := by
  intro pairs
  induction pairs with
  | nil => intro d k _; rfl
  | cons kv rest ih =>
    intro d k hk
    have h1 : k ≠ kv.1 := fun h => hk (by simp [h])
    have h2 : k ∉ rest.map Prod.fst := fun h => hk (by simp [h])
    rw [List.foldl_cons, ih (alistSet d kv.1 kv.2) k h2,
      alistGet_alistSet_ne d kv.2 h1]

theorem foldl_alistSet_get_mem {β : Type} :
    ∀ (pairs : List (String × β)) (d : List (String × β)) (k : String) (v : β),
      (pairs.map Prod.fst).Nodup → (k, v) ∈ pairs →
      alistGet (pairs.foldl (fun acc kv => alistSet acc kv.1 kv.2) d) k
        = some v := by
  intro pairs
  induction pairs with
  | nil => intro d k v _ h; cases h
  | cons kv rest ih =>
    intro d k v hnd hmem
    rw [List.foldl_cons]
    rcases List.mem_cons.mp hmem with heq | hmem2
    · have hk : k ∉ rest.map Prod.fst := by
        rw [← heq] at hnd
        simp only [List.map_cons] at hnd
        exact (List.nodup_cons.mp hnd).1
      rw [foldl_alistSet_get_notmem rest _ k hk, ← heq,
        alistGet_alistSet_self]
    · have h2 : (rest.map Prod.fst).Nodup := by
        simp only [List.map_cons] at hnd
        exact (List.nodup_cons.mp hnd).2
      exact ih _ k v h2 hmem2

theorem foldl_alistSet_keys {β : Type} :
    ∀ (pairs : List (String × β)) (d : List (String × β)),
      (∀ kv ∈ pairs, (alistGet d kv.1).isSome = true) →
      (pairs.foldl (fun acc kv => alistSet acc kv.1 kv.2) d).map Prod.fst
        = d.map Prod.fst := by
  intro pairs
  induction pairs with
  | nil => intro d _; rfl
  | cons kv rest ih =>
    intro d h
    have hpres : ∀ kv2 ∈ rest,
        (alistGet (alistSet d kv.1 kv.2) kv2.1).isSome = true := by
      intro kv2 h2
      by_cases he : kv2.1 = kv.1
      · rw [he, alistGet_alistSet_self]; rfl
      · rw [alistGet_alistSet_ne d kv.2 he]
        exact h kv2 (by simp [h2])
    rw [List.foldl_cons, ih (alistSet d kv.1 kv.2) hpres,
      alistSet_keys_of_mem d kv.1 kv.2 (h kv (by simp))]

theorem alistGet_map_self {β : Type} (g : String → β) :
    ∀ (names : List String) (nm : String),
      alistGet (names.map (fun n => (n, g n))) nm
        = if nm ∈ names then some (g nm) else none := by
  intro names
  induction names with
  | nil => intro nm; simp [alistGet]
  | cons a tl ih =>
    intro nm
    by_cases h : a = nm
    · subst h; simp [alistGet]
    · simp only [alistGet, List.map_cons, if_neg h, ih nm]
      by_cases h2 : nm ∈ tl
      · rw [if_pos h2,
          if_pos (show nm ∈ a :: tl from List.mem_cons.mpr (Or.inr h2))]
      · rw [if_neg h2, if_neg (show nm ∉ a :: tl from fun hc =>
          (List.mem_cons.mp hc).elim (fun he => h he.symm) h2)]

theorem alistGet_eq_some_axisOf (p : Parameters) {nm : String}
    (h : (alistGet p.paramvals_by_name nm).isSome = true) :
    alistGet p.paramvals_by_name nm = some (axisOf p nm) := by
  unfold axisOf
  cases h2 : alistGet p.paramvals_by_name nm with
  | none => rw [h2] at h; cases h
  | some v => simp [h2]

theorem getD_map_of_lt {α β : Type} (f : α → β) (d : β) (d2 : α) :
    ∀ (l : List α) (i : Nat), i < l.length →
      (l.map f).getD i d = f (l.getD i d2) := by
  intro l
  induction l with
  | nil => intro i hi; simp at hi
  | cons a tl ih =>
    intro i hi
    cases i with
    | zero => simp [List.getD_cons_zero]
    | succ i => simpa [List.getD_cons_succ] using ih i (by simpa using hi)

theorem zip_getD_mem {α β : Type} (da : α) (db : β) :
    ∀ (as_ : List α) (bs : List β) (i : Nat), i < as_.length →
      as_.length ≤ bs.length →
      (as_.getD i da, bs.getD i db) ∈ as_.zip bs := by
  intro as_
  induction as_ with
  | nil => intro bs i hi _; simp at hi
  | cons a tl ih =>
    intro bs i hi hlen
    cases bs with
    | nil => simp at hlen
    | cons b bt =>
      cases i with
      | zero => simp [List.zip_cons_cons, List.getD_cons_zero]
      | succ i =>
        have hmem := ih bt i (by simpa using hi) (by simpa using hlen)
        simp only [List.zip_cons_cons, List.getD_cons_succ]
        exact List.mem_cons.mpr (Or.inr hmem)

theorem head?_eq_headD {α : Type} (l : List α) (d : α) (h : l ≠ []) :
    l.head? = some (l.headD d) := by
  cases l with
  | nil => exact absurd rfl h
  | cons a tl => rfl

theorem getD_mem_of_lt {α : Type} (l : List α) (d : α) {i : Nat}
    (hi : i < l.length) : l.getD i d ∈ l := by
  rw [List.getD_eq_getElem?_getD, List.getElem?_eq_getElem hi]
  exact List.getElem_mem hi

/-! ## `create_reduced` characterization -/

theorem create_reduced_props (p : Parameters) (fixed : List String)
    (fvarg : Option (List (List Int))) (fvals : List (List Int))
    (hkeys : ∀ nm ∈ p.paramnames_list,
      (alistGet p.paramvals_by_name nm).isSome = true)
    (hsub : ∀ nm ∈ fixed, nm ∈ p.paramnames_list) (hnd : fixed.Nodup)
    (hlen : fixed.length ≤ fvals.length)
    (hfv : (match fvarg with
      | some vs => some vs
      | none => mapO (fun nm =>
          (alistGet p.paramvals_by_name nm).bind (fun vals =>
            vals.head?.bind (fun v0 => some [v0]))) fixed) = some fvals) :
    ∃ q, p.create_reduced fixed fvarg = some q ∧
      q.paramnames_list = p.paramnames_list ∧
      (∀ i, i < fixed.length →
        alistGet q.paramvals_by_name (fixed.getD i "")
          = some (fvals.getD i [])) ∧
      (∀ nm ∈ p.paramnames_list, nm ∉ fixed →
        alistGet q.paramvals_by_name nm = alistGet p.paramvals_by_name nm) := by
  have hbase := mapO_eq_some_of
    (fun nm =>
      (alistGet p.paramvals_by_name nm).map (fun vals => (nm, vals)))
    (fun nm => (nm, axisOf p nm)) p.paramnames_list
    (fun nm hm => by simp [alistGet_eq_some_axisOf p (hkeys nm hm)])
  have hzip := zipExact_eq_some fixed fvals hlen
  set base := p.paramnames_list.map (fun nm => (nm, axisOf p nm)) with hbdef
  have hzkeys : ((fixed.zip fvals).map Prod.fst).Nodup := by
    rw [List.map_fst_zip fixed fvals hlen]; exact hnd
  have hbget : ∀ nm ∈ p.paramnames_list,
      alistGet base nm = some (axisOf p nm) := by
    intro nm hm
    rw [hbdef, alistGet_map_self (fun n => axisOf p n) p.paramnames_list nm,
      if_pos hm]
  have hbmem : ∀ kv ∈ fixed.zip fvals, (alistGet base kv.1).isSome = true := by
    intro kv hkv
    have h1 : kv.1 ∈ fixed := by
      have := List.of_mem_zip hkv
      exact this.1
    rw [hbget kv.1 (hsub kv.1 h1)]; rfl
  set d := (fixed.zip fvals).foldl (fun acc kv => alistSet acc kv.1 kv.2) base
    with hddef
  refine ⟨⟨d, d.map Prod.fst⟩, ?_, ?_, ?_, ?_⟩
  · show p.create_reduced fixed fvarg = some ⟨d, d.map Prod.fst⟩
    unfold Parameters.create_reduced
    rw [hfv, hbase]
    show (match zipExact fixed fvals with
      | some pairs =>
        let dd := pairs.foldl (fun acc kv => alistSet acc kv.1 kv.2) base
        some (⟨dd, dd.map Prod.fst⟩ : Parameters)
      | none => none) = some ⟨d, d.map Prod.fst⟩
    rw [hzip]
  · show d.map Prod.fst = p.paramnames_list
    rw [hddef, foldl_alistSet_keys (fixed.zip fvals) base hbmem, hbdef,
      List.map_map]
    have : (Prod.fst ∘ fun nm => (nm, axisOf p nm)) = id := funext fun _ => rfl
    rw [this, List.map_id]
  · intro i hi
    show alistGet d (fixed.getD i "") = some (fvals.getD i [])
    exact foldl_alistSet_get_mem (fixed.zip fvals) base (fixed.getD i "")
      (fvals.getD i []) hzkeys (zip_getD_mem "" [] fixed fvals i hi hlen)
  · intro nm hm hnot
    show alistGet d nm = alistGet p.paramvals_by_name nm
    rw [hddef, foldl_alistSet_get_notmem (fixed.zip fvals) base nm
        (by rw [List.map_fst_zip fixed fvals hlen]; exact hnot),
      hbget nm hm, alistGet_eq_some_axisOf p (hkeys nm hm)]

theorem create_reduced_none_props (p : Parameters) (fixed : List String)
    (hkeys : ∀ nm ∈ p.paramnames_list,
      (alistGet p.paramvals_by_name nm).isSome = true)
    (hsub : ∀ nm ∈ fixed, nm ∈ p.paramnames_list) (hnd : fixed.Nodup)
    (hne : ∀ nm ∈ fixed, axisOf p nm ≠ []) :
    ∃ q, p.create_reduced fixed none = some q ∧
      q.paramnames_list = p.paramnames_list ∧
      (∀ nm ∈ fixed,
        alistGet q.paramvals_by_name nm = some [(axisOf p nm).headD 0]) ∧
      (∀ nm ∈ p.paramnames_list, nm ∉ fixed →
        alistGet q.paramvals_by_name nm = alistGet p.paramvals_by_name nm) := by
  have hfv := mapO_eq_some_of
    (fun nm =>
      (alistGet p.paramvals_by_name nm).bind (fun vals =>
        vals.head?.bind (fun v0 => some [v0])))
    (fun nm => [(axisOf p nm).headD 0]) fixed
    (fun nm hm => by
      show (alistGet p.paramvals_by_name nm).bind (fun vals =>
          vals.head?.bind (fun v0 => some [v0]))
        = some [(axisOf p nm).headD 0]
      rw [alistGet_eq_some_axisOf p (hkeys nm (hsub nm hm))]
      simp only [Option.some_bind,
        head?_eq_headD (axisOf p nm) 0 (hne nm hm)])
  obtain ⟨q, h1, h2, h3, h4⟩ := create_reduced_props p fixed none
    (fixed.map (fun nm => [(axisOf p nm).headD 0])) hkeys hsub hnd
    (by rw [List.length_map]) hfv
  refine ⟨q, h1, h2, ?_, h4⟩
  intro nm hm
  obtain ⟨i, hi, hgi⟩ := List.mem_iff_getElem.mp hm
  have hgd : fixed.getD i "" = nm := by
    rw [List.getD_eq_getElem?_getD, List.getElem?_eq_getElem hi, hgi]
    rfl
  have := h3 i hi
  rw [hgd] at this
  rw [this, getD_map_of_lt (fun nm => [(axisOf p nm).headD 0]) [] "" fixed i hi,
    hgd]

/-- C8: `create_reduced` replaces each named axis by the corresponding entry
of `fixed_values` when provided (a single-valued axis when that entry holds
one value, as in the intended use), and otherwise by the one-element axis
holding that axis's first value; every other axis keeps exactly its original
values, and the axis ordering is unchanged. -/
theorem c8_create_reduced_spec (p : Parameters) (fixed : List String)
    (hwf : p.WF) (hsub : ∀ nm ∈ fixed, nm ∈ p.paramnames_list)
    (hnd : fixed.Nodup) :
    (∀ vs : List (List Int), vs.length = fixed.length →
      (∀ v ∈ vs, v.length = 1) →
      ∃ q, p.create_reduced fixed (some vs) = some q ∧
        q.paramnames_list = p.paramnames_list ∧
        (∀ i, i < fixed.length →
          alistGet q.paramvals_by_name (fixed.getD i "")
            = some (vs.getD i []) ∧ (vs.getD i []).length = 1) ∧
        (∀ nm ∈ p.paramnames_list, nm ∉ fixed →
          alistGet q.paramvals_by_name nm
            = alistGet p.paramvals_by_name nm)) ∧
    ((∀ nm ∈ fixed, axisOf p nm ≠ []) →
      ∃ q, p.create_reduced fixed none = some q ∧
        q.paramnames_list = p.paramnames_list ∧
        (∀ nm ∈ fixed,
          alistGet q.paramvals_by_name nm
            = some [(axisOf p nm).headD 0]) ∧
        (∀ nm ∈ p.paramnames_list, nm ∉ fixed →
          alistGet q.paramvals_by_name nm
            = alistGet p.paramvals_by_name nm)) := by
  constructor
  · intro vs hvlen hv1
    obtain ⟨q, h1, h2, h3, h4⟩ := create_reduced_props p fixed (some vs) vs
      hwf.2 hsub hnd (le_of_eq hvlen.symm) rfl
    refine ⟨q, h1, h2, fun i hi => ⟨h3 i hi, ?_⟩, h4⟩
    have hiv : i < vs.length := by omega
    exact hv1 (vs.getD i []) (getD_mem_of_lt vs [] hiv)
  · intro hne
    exact create_reduced_none_props p fixed hwf.2 hsub hnd hne

theorem c8_witness :
    pC8ex.WF ∧ (∀ nm ∈ ["p"], nm ∈ pC8ex.paramnames_list) ∧
    (∃ q, pC8ex.create_reduced ["p"] (some [[5]]) = some q ∧
      q.paramnames_list = pC8ex.paramnames_list ∧
      alistGet q.paramvals_by_name "p" = some [5] ∧
      alistGet q.paramvals_by_name "q" = alistGet pC8ex.paramvals_by_name "q") ∧
    (∃ q, pC8ex.create_reduced ["p"] none = some q ∧
      q.paramnames_list = pC8ex.paramnames_list ∧
      alistGet q.paramvals_by_name "p" = some [1] ∧
      alistGet q.paramvals_by_name "q" = alistGet pC8ex.paramvals_by_name "q") := by
  have hs := (c8_create_reduced_spec pC8ex ["p"] (by decide) (by decide)
    (by decide)).1 [[5]] (by decide) (by decide)
  have hn := (c8_create_reduced_spec pC8ex ["p"] (by decide) (by decide)
    (by decide)).2 (by decide)
  refine ⟨by decide, by decide, ?_, ?_⟩
  · obtain ⟨q, h1, h2, h3, h4⟩ := hs
    exact ⟨q, h1, h2, by simpa using (h3 0 (by decide)).1,
      h4 "q" (by decide) (by decide)⟩
  · obtain ⟨q, h1, h2, h3, h4⟩ := hn
    exact ⟨q, h1, h2, by simpa using h3 "p" (by decide),
      h4 "q" (by decide) (by decide)⟩

/-! ## Replication expansion of collapsed axes (`np.repeat` loop) -/

theorem getD_indexOf (l : List String) {nm : String} (h : nm ∈ l) :
    l.getD (l.indexOf nm) "" = nm := by
  have hlt : l.indexOf nm < l.length := List.indexOf_lt_length.mpr h
  have h2 := List.indexOf_get hlt
  rw [List.get_eq_getElem] at h2
  rw [List.getD_eq_getElem?_getD, List.getElem?_eq_getElem hlt]
  simp [h2]

theorem repeat_expand_entry {β : Type} (p : Parameters) :
    ∀ (l : List String) (arr : NdArray β) (idx : List Nat),
      (repeat_expand p l arr).entry idx = arr.entry (ctransform p l idx) := by
  intro l
  induction l with
  | nil => intro arr idx; rfl
  | cons nm rest ih =>
    intro arr idx
    rw [repeat_expand, ih, ctransform]
    rfl

theorem ctransform_length (p : Parameters) :
    ∀ (l : List String) (idx : List Nat),
      (ctransform p l idx).length = idx.length := by
  intro l
  induction l with
  | nil => intro idx; rfl
  | cons nm rest ih =>
    intro idx
    rw [ctransform]
    simp [List.length_set, ih]

theorem ctransform_set_comm (p : Parameters) :
    ∀ (l : List String) (k : Nat), (∀ nm ∈ l, p.index_by_name nm ≠ k) →
      ∀ (idx : List Nat) (a : Nat),
        ctransform p l (idx.set k a) = (ctransform p l idx).set k a := by
  intro l
  induction l with
  | nil => intro k _ idx a; rfl
  | cons nm rest ih =>
    intro k hne idx a
    have hk : p.index_by_name nm ≠ k := hne nm (by simp)
    have hrest : ∀ nm2 ∈ rest, p.index_by_name nm2 ≠ k := fun nm2 h2 =>
      hne nm2 (by simp [h2])
    rw [ctransform, ctransform, ih k hrest idx a]
    have hget : ((ctransform p rest idx).set k a).getD (p.index_by_name nm) 0
        = (ctransform p rest idx).getD (p.index_by_name nm) 0 := by
      simp only [List.getD_eq_getElem?_getD]
      rw [List.getElem?_set_ne (Ne.symm hk)]
    rw [hget, List.set_comm _ _ _ (Ne.symm hk)]

theorem ctransform_set_invariant (p : Parameters) :
    ∀ (l : List String) (name : String), name ∈ l → l.Nodup →
      (∀ nm ∈ l, nm ∈ p.paramnames_list) → name ∈ p.paramnames_list →
      ∀ (idx : List Nat) (i j : Nat),
        p.index_by_name name < idx.length →
        i < p.counts.getD (p.index_by_name name) 0 →
        j < p.counts.getD (p.index_by_name name) 0 →
        ctransform p l (idx.set (p.index_by_name name) i)
          = ctransform p l (idx.set (p.index_by_name name) j) := by
  intro l
  induction l with
  | nil => intro name h; cases h
  | cons nm rest ih =>
    intro name hmem hnd hsub hname idx i j hk hi hj
    rcases List.mem_cons.mp hmem with heq | hmem2
    · subst heq
      have hnotin : name ∉ rest := (List.nodup_cons.mp hnd).1
      have hrest : ∀ nm2 ∈ rest,
          p.index_by_name nm2 ≠ p.index_by_name name := by
        intro nm2 h2 hcontra
        have h1 : nm2 ∈ p.paramnames_list := hsub nm2 (by simp [h2])
        have : nm2 = name := (List.indexOf_inj h1 hname).mp hcontra
        exact hnotin (this ▸ h2)
      rw [ctransform, ctransform,
        ctransform_set_comm p rest _ hrest idx i,
        ctransform_set_comm p rest _ hrest idx j]
      have hlenB : (ctransform p rest idx).length = idx.length :=
        ctransform_length p rest idx
      have hgi : ((ctransform p rest idx).set (p.index_by_name name) i).getD
          (p.index_by_name name) 0 = i := by
        simp only [List.getD_eq_getElem?_getD]
        rw [List.getElem?_set_self (by rw [hlenB]; exact hk)]
        rfl
      have hgj : ((ctransform p rest idx).set (p.index_by_name name) j).getD
          (p.index_by_name name) 0 = j := by
        simp only [List.getD_eq_getElem?_getD]
        rw [List.getElem?_set_self (by rw [hlenB]; exact hk)]
        rfl
      rw [hgi, hgj, List.set_set, List.set_set,
        Nat.div_eq_of_lt hi, Nat.div_eq_of_lt hj]
    · have hnd2 : rest.Nodup := (List.nodup_cons.mp hnd).2
      have hsub2 : ∀ nm2 ∈ rest, nm2 ∈ p.paramnames_list := fun nm2 h2 =>
        hsub nm2 (by simp [h2])
      rw [ctransform, ctransform,
        ih name hmem2 hnd2 hsub2 hname idx i j hk hi hj]

theorem repeat_expand_shape_notmem {β : Type} (p : Parameters) :
    ∀ (l : List String) (k : Nat), (∀ nm ∈ l, p.index_by_name nm ≠ k) →
      ∀ arr : NdArray β,
        (repeat_expand p l arr).shape.getD k 0 = arr.shape.getD k 0 := by
  intro l
  induction l with
  | nil => intro k _ arr; rfl
  | cons nm rest ih =>
    intro k hne arr
    rw [repeat_expand, ih k (fun nm2 h2 => hne nm2 (by simp [h2]))]
    show (arr.shape.set (p.index_by_name nm) _).getD k 0 = arr.shape.getD k 0
    simp only [List.getD_eq_getElem?_getD]
    rw [List.getElem?_set_ne (hne nm (by simp))]

theorem repeat_expand_shape_mem {β : Type} (p : Parameters) :
    ∀ (l : List String) (name : String), name ∈ l → l.Nodup →
      (∀ nm ∈ l, nm ∈ p.paramnames_list) → name ∈ p.paramnames_list →
      ∀ arr : NdArray β, p.index_by_name name < arr.shape.length →
        (repeat_expand p l arr).shape.getD (p.index_by_name name) 0
          = p.counts.getD (p.index_by_name name) 0
            * arr.shape.getD (p.index_by_name name) 0 := by
  intro l
  induction l with
  | nil => intro name h; cases h
  | cons nm rest ih =>
    intro name hmem hnd hsub hname arr hk
    rcases List.mem_cons.mp hmem with heq | hmem2
    · subst heq
      have hnotin : name ∉ rest := (List.nodup_cons.mp hnd).1
      have hrest : ∀ nm2 ∈ rest,
          p.index_by_name nm2 ≠ p.index_by_name name := by
        intro nm2 h2 hcontra
        have h1 : nm2 ∈ p.paramnames_list := hsub nm2 (by simp [h2])
        have : nm2 = name := (List.indexOf_inj h1 hname).mp hcontra
        exact hnotin (this ▸ h2)
      rw [repeat_expand, repeat_expand_shape_notmem p rest _ hrest]
      show (arr.shape.set (p.index_by_name name) _).getD (p.index_by_name name) 0
        = _
      simp only [List.getD_eq_getElem?_getD]
      rw [List.getElem?_set_self hk]
      rfl
    · have hnd2 : rest.Nodup := (List.nodup_cons.mp hnd).2
      have hsub2 : ∀ nm2 ∈ rest, nm2 ∈ p.paramnames_list := fun nm2 h2 =>
        hsub nm2 (by simp [h2])
      have hne : p.index_by_name nm ≠ p.index_by_name name := by
        intro hcontra
        have h1 : nm ∈ p.paramnames_list := hsub nm (by simp)
        have heq2 : nm = name := (List.indexOf_inj h1 hname).mp hcontra
        have hnotin : nm ∉ rest := (List.nodup_cons.mp hnd).1
        exact hnotin (by rw [heq2]; exact hmem2)
      rw [repeat_expand, ih name hmem2 hnd2 hsub2 hname _
        (by simpa [npRepeat, List.length_set] using hk)]
      show _ * (arr.shape.set (p.index_by_name nm) _).getD
          (p.index_by_name name) 0 = _
      simp only [List.getD_eq_getElem?_getD]
      rw [List.getElem?_set_ne hne]

/-- C7: for every axis collapsed for a subsystem (an axis from whose
subsystem-update-map entry the subsystem is absent), the subsystem's final
bare-spectrum array has that axis restored to its full size by replication,
and its entries are identical at every position along that axis's dimension,
whatever the coordinates of the other axes. -/
theorem c7_replication_invariant {β : Type} (p : Parameters)
    (info : List (String × List Nat)) (s : Nat) (f : List Int → β) (d : β)
    (arr : NdArray β) (name : String)
    (hwf : p.WF)
    (hne : ∀ nm ∈ paramnames_no_subsys_update p (some info) s, axisOf p nm ≠ [])
    (hname : name ∈ paramnames_no_subsys_update p (some info) s)
    (harr : subsys_bare_spectrum_sweep p (some info) s f d = some arr)
    (idx : List Nat) (i j : Nat)
    (hlen : idx.length = p.paramnames_list.length)
    (hi : i < p.counts.getD (p.index_by_name name) 0)
    (hj : j < p.counts.getD (p.index_by_name name) 0) :
    arr.shape.getD (p.index_by_name name) 0
      = p.counts.getD (p.index_by_name name) 0 ∧
    arr.entry (idx.set (p.index_by_name name) i)
      = arr.entry (idx.set (p.index_by_name name) j) := by
  have hfsub : ∀ nm ∈ paramnames_no_subsys_update p (some info) s,
      nm ∈ p.paramnames_list := by
    intro nm hm
    exact (List.mem_filter.mp hm).1
  have hfnd : (paramnames_no_subsys_update p (some info) s).Nodup :=
    List.Nodup.filter _ hwf.1
  obtain ⟨q, hq1, hq2, hq3, hq4⟩ :=
    create_reduced_none_props p (paramnames_no_subsys_update p (some info) s)
      hwf.2 hfsub hfnd hne
  rw [subsys_bare_spectrum_sweep, hq1, Option.map_some'] at harr
  have harr2 : arr = repeat_expand p (paramnames_no_subsys_update p (some info) s)
      (NdArray.ofFlat q.counts ((subsys_bare_enumeration q).map f) d) :=
    (Option.some.inj harr).symm
  have hkn : name ∈ p.paramnames_list := hfsub name hname
  have hklt : p.index_by_name name < p.paramnames_list.length :=
    List.indexOf_lt_length.mpr hkn
  have hqlen : q.counts.length = p.paramnames_list.length := by
    rw [Parameters.counts, Parameters.paramvals_list, List.length_map,
      List.length_map, hq2]
  have hinit1 : q.counts.getD (p.index_by_name name) 0 = 1 := by
    have hl1 : q.paramvals_list.length = p.paramnames_list.length := by
      rw [Parameters.paramvals_list, List.length_map, hq2]
    have e1 : q.counts.getD (p.index_by_name name) 0
        = (q.paramvals_list.getD (p.index_by_name name) []).length := by
      rw [Parameters.counts]
      exact getD_map_of_lt List.length 0 [] q.paramvals_list
        (p.index_by_name name) (by rw [hl1]; exact hklt)
    have e2 : q.paramvals_list.getD (p.index_by_name name) []
        = axisOf q (q.paramnames_list.getD (p.index_by_name name) "") := by
      rw [Parameters.paramvals_list]
      exact getD_map_of_lt (fun nm => axisOf q nm) [] "" q.paramnames_list
        (p.index_by_name name) (by rw [hq2]; exact hklt)
    have e3 : q.paramnames_list.getD (p.index_by_name name) "" = name := by
      rw [hq2]
      exact getD_indexOf p.paramnames_list hkn
    rw [e1, e2, e3]
    unfold axisOf
    rw [hq3 name hname]
    rfl
  constructor
  · rw [harr2, repeat_expand_shape_mem p _ name hname hfnd hfsub hkn _
      (by show p.index_by_name name < q.counts.length
          rw [hqlen]; exact hklt)]
    show _ * q.counts.getD (p.index_by_name name) 0 = _
    rw [hinit1, Nat.mul_one]
  · rw [harr2, repeat_expand_entry, repeat_expand_entry,
      ctransform_set_invariant p _ name hname hfnd hfsub hkn idx i j
        (by rw [hlen]; exact hklt) hi hj]

theorem c7_witness :
    p2ex.WF ∧
    (∀ nm ∈ paramnames_no_subsys_update p2ex (some infoEx) 0,
      axisOf p2ex nm ≠ []) ∧
    "p" ∈ paramnames_no_subsys_update p2ex (some infoEx) 0 ∧
    subsys_bare_spectrum_sweep p2ex (some infoEx) 0 (fun v => v)
      ([] : List Int) = some arrEx ∧
    ([0, 1] : List Nat).length = p2ex.paramnames_list.length ∧
    0 < p2ex.counts.getD (p2ex.index_by_name "p") 0 ∧
    1 < p2ex.counts.getD (p2ex.index_by_name "p") 0 ∧
    arrEx.shape.getD (p2ex.index_by_name "p") 0
      = p2ex.counts.getD (p2ex.index_by_name "p") 0 ∧
    arrEx.entry (([0, 1] : List Nat).set (p2ex.index_by_name "p") 0)
      = arrEx.entry (([0, 1] : List Nat).set (p2ex.index_by_name "p") 1) := by
  have h := c7_replication_invariant p2ex infoEx 0 (fun v => v) [] arrEx "p"
    (by decide) (by decide) (by decide) rfl [0, 1] 0 1 (by decide) (by decide)
    (by decide)
  exact ⟨by decide, by decide, by decide, rfl, by decide, by decide, by decide,
    h.1, h.2⟩

/-! ## Sweep container: selection, staleness, dispatch discipline -/

/-- C10: `sweep[key]` with a tuple or slice key stores the key in
`_current_param_indices` and returns the very same sweep object (same
identity: `self_id` unchanged); every other field — the result store, the
staleness flag, the parameters, the attached handle — is unchanged, and two
successive selections overwrite each other's selector state. -/
theorem c10_getitem_select_frame (s : SweepState) (k k2 : Selector) :
    (getitem_select s k).current_param_indices = k ∧
    (getitem_select s k).data = s.data ∧
    (getitem_select s k).out_of_sync = s.out_of_sync ∧
    (getitem_select s k).parameters = s.parameters ∧
    (getitem_select s k).hilbertspace = s.hilbertspace ∧
    (getitem_select s k).self_id = s.self_id ∧
    (getitem_select s k).n_subsys = s.n_subsys ∧
    getitem_select (getitem_select s k) k2 = getitem_select s k2 :=
  ⟨rfl, rfl, rfl, rfl, rfl, rfl, rfl, rfl⟩

/-- C2 (amended): during `run()` the dispatch flag is observed `False` at the
start of every executed phase and no invalidation event is observable during
the bulk computation; the flag is re-enabled exactly when `run()` returns
normally — when a per-point eigensolve or worker failure propagates an error
out of `run()`, there is no try/finally and the flag remains disabled. -/
theorem c2_dispatch_discipline (env : RunEnv) (w : World) :
    (run env w).bulk_events = [] ∧
    (run env w).phase_flags.all (fun b => b == false) = true ∧
    (run env w).world.dispatch_enabled = (run env w).error.isNone := by
  rcases env with ⟨be, de, le, cn⟩
  cases be <;> cases de <;> cases le <;>
    simp [run, List.all_append, List.all_eq_true]

/-- C2 counterexample: with a per-point eigensolve failing in the bare phase,
the error propagates out of `run()` and the dispatch flag is left disabled —
the claim's "re-enabled ... including when ... raises an error out of run()"
is false on the code. -/
theorem c2_counterexample :
    (run envBareFail w0ex).error = some "eigensolve failed" ∧
    (run envBareFail w0ex).world.dispatch_enabled = false :=
  ⟨rfl, rfl⟩

/-- C1: after a completed `run()` the result store holds the lookup table
under the key `"dressed_indices"` (and `bare_esys`/`esys`), but `receive`
guards on the key `"lookup"`, which `run()` never writes.  Delivering a
`HILBERTSPACE_UPDATE` from the sweep's own handle, or a
`PARAMETERSWEEP_UPDATE` from the sweep itself, leaves the state — in
particular `_out_of_sync` — entirely unchanged, contradicting the claim that
the staleness flag is set to true. -/
theorem c1_receive_after_run :
    (alistGet (run envOK w0ex).world.sweep.data "dressed_indices").isSome
      = true ∧
    alistGet (run envOK w0ex).world.sweep.data "lookup" = none ∧
    receive (run envOK w0ex).world.sweep "HILBERTSPACE_UPDATE"
      (run envOK w0ex).world.sweep.hilbertspace
      = (run envOK w0ex).world.sweep ∧
    receive (run envOK w0ex).world.sweep "PARAMETERSWEEP_UPDATE"
      (run envOK w0ex).world.sweep.self_id
      = (run envOK w0ex).world.sweep ∧
    (run envOK w0ex).world.sweep.out_of_sync = false := by
  refine ⟨rfl, rfl, by decide, by decide, rfl⟩

/-- C3: `is_single_sweep` ignores its selector argument and tests only
whether the stored `dressed_indices` array is two-dimensional.  On a
completed two-axis sweep it answers `true` for a selector that fixes both
axes (zero free axes — the claim requires `false`), and on a completed
three-axis sweep it answers `false` for a selector that leaves exactly one
axis free (the claim requires `true`). -/
theorem c3_is_single_sweep_ignores_selector :
    is_single_sweep (run envOK w0ex).world.sweep
      (.tup [.fixedIdx 0, .fixedIdx 0]) = some true ∧
    spec_free_axis_count p2ex (.tup [.fixedIdx 0, .fixedIdx 0]) = 0 ∧
    is_single_sweep (run envOK w3ex).world.sweep
      (.tup [.fixedIdx 0, .fixedIdx 0]) = some false ∧
    spec_free_axis_count p3ex (.tup [.fixedIdx 0, .fixedIdx 0]) = 1 := by
  refine ⟨by decide, rfl, by decide, rfl⟩

/-- C4: because its guard is `is_single_sweep`, which ignores the selector,
`bare_specdata_list` on a completed two-axis sweep raises no
ambiguous-selection error for a selector that leaves both axes free (the
claim requires an error), and on a completed three-axis sweep it raises the
error even though all but one axis is fixed (the claim requires it to be
permitted). -/
theorem c4_bare_specdata_guard :
    bare_specdata_list (run envOK w0ex).world.sweep none = Except.ok () ∧
    spec_free_axis_count p2ex
      ((run envOK w0ex).world.sweep.current_param_indices) = 2 ∧
    bare_specdata_list (run envOK w3ex).world.sweep
      (some (.tup [.fixedIdx 0, .fixedIdx 0]))
      = Except.error
          "All but one parameter must be fixed for bare_specdata_list." ∧
    spec_free_axis_count p3ex (.tup [.fixedIdx 0, .fixedIdx 0]) = 1 := by
  refine ⟨by rfl, by decide, by rfl, rfl⟩

end ParamSweep
